import Mathlib

/-!
Verification of the certificate-ingestion pipeline in `lib/certs.go`
(package `lib` of the certigo repository).

The Go source is shallowly embedded: pure functions become Lean
functions; the stderr writes and callback invocations of
`readCertsFromStream` become explicit output lists; Go's `error`
results become `Option String` / `Except String`; byte slices become
`List Nat`; the external decoding capabilities (x509, pkcs7, pkcs12,
jceks) are modelled as data carried by the input stream, since the
repository treats them as opaque services.
-/

namespace Certigo

/-- PEM header field for the friendly name/alias (`nameHeader` in the source). -/
def nameHeader : String := "friendlyName"

/-- PEM header field for the origin file (`fileHeader` in the source). -/
def fileHeader : String := "originFile"

/-- `os.Stdin.Name()` on Linux, the value compared against in `readCertsFromStream`. -/
def stdinName : String := "/dev/stdin"

/-- The `fileExtToFormat` table from the source, as a lookup function. -/
def fileExtToFormat (ext : String) : Option String :=
  if ext = ".pem" then some "PEM"
  else if ext = ".crt" then some "PEM"
  else if ext = ".p7b" then some "PEM"
  else if ext = ".p7c" then some "PEM"
  else if ext = ".p12" then some "PKCS12"
  else if ext = ".pfx" then some "PKCS12"
  else if ext = ".jceks" then some "JCEKS"
  else if ext = ".jks" then some "JCEKS"
  else if ext = ".der" then some "DER"
  else none

/-- Helper for `filepathExt`: walk the reversed character list, collecting
characters until the final dot (returning the extension) or a path
separator / the start of the string (no extension). -/
def revExtAux (acc : List Char) : List Char → Option (List Char)
  | [] => none
  | c :: rest =>
    if c = '.' then some (c :: acc)
    else if c = '/' then none
    else revExtAux (c :: acc) rest

/-- Go's `filepath.Ext`: the suffix beginning at the final dot in the final
path element, or the empty string when there is no dot. -/
def filepathExt (s : String) : String :=
  match revExtAux [] s.data.reverse with
  | some cs => String.mk cs
  | none => ""

/-- ASCII lowercasing of one character (how Go's `strings.ToLower` acts
on the characters occurring in file extensions). -/
def charLower (c : Char) : Char :=
  if 65 ≤ c.toNat ∧ c.toNat ≤ 90 then Char.ofNat (c.toNat + 32) else c

/-- `strings.ToLower`, character by character. -/
def strLower (s : String) : String := String.mk (s.data.map charLower)

/-- `bufio.Reader.Peek(4)`: the first four bytes of the stream, failing
when fewer than four bytes are available. -/
def peek4 : List Nat → Option (Nat × Nat × Nat × Nat)
  | b0 :: b1 :: b2 :: b3 :: _ => some (b0, b1, b2, b3)
  | _ => none

/-- `binary.BigEndian.Uint32` on four bytes. -/
def beUint32 (b0 b1 b2 b3 : Nat) : Nat :=
  ((b0 * 256 + b1) * 256 + b2) * 256 + b3

/-- The magic-number heuristics of `formatForFile` (source lines 293-311).
The Go mask tests are embedded arithmetically: for `magic < 2^32`,
`magic&0xFFFF0000 == 0x30820000` is `magic / 65536 = 0x3082`, and
`magic&0x0000FF00 == 0x0300` is `magic / 256 % 256 = 0x03`. -/
def guessFromMagic (magic : Nat) : Except String String :=
  if magic = 0xCECECECE ∨ magic = 0xFEEDFEED then .ok "JCEKS"
  else if magic = 0x2D2D2D2D ∨ magic = 0x434F4E4E then .ok "PEM"
  else if magic / 65536 = 0x3082 then
    if magic / 256 % 256 = 0x03 then .ok "DER" else .ok "PKCS12"
  else .error "unable to guess file format"

/-- `formatForFile`: explicit hint first, then the extension table on the
lowercased extension, then the 4-byte magic sniff. -/
def formatForFile (stream : List Nat) (filename format : String) :
    Except String String :=
  if format ≠ "" then .ok format
  else
    match fileExtToFormat (strLower (filepathExt filename)) with
    | some guess => .ok guess
    | none =>
      match peek4 stream with
      | none => .error "unable to read file"
      | some (b0, b1, b2, b3) => guessFromMagic (beUint32 b0 b1 b2 b3)

/-! ### Header maps

Go's `map[string]string` is modelled as an association list whose
entries have pairwise distinct keys; `hdrInsert` is map assignment
(update in place when the key is present, append otherwise) and
`hlookup` is map indexing. -/

/-- Map indexing: first entry with the given key. -/
def hlookup : List (String × String) → String → Option String
  | [], _ => none
  | (k, v) :: rest, key => if k = key then some v else hlookup rest key

/-- Go map assignment `m[k] = v`: overwrite the entry when present,
append a fresh entry otherwise. -/
def hdrInsert (m : List (String × String)) (k v : String) :
    List (String × String) :=
  if (hlookup m k).isSome then
    m.map (fun p => if p.1 = k then (k, v) else p)
  else m ++ [(k, v)]

/-- Well-formedness of a modelled Go map: keys are pairwise distinct. -/
def WFH (m : List (String × String)) : Prop := (m.map Prod.fst).Nodup

instance (m : List (String × String)) : Decidable (WFH m) := by
  unfold WFH; infer_instance

/-- `mergeHeaders` from the source: start from an empty map, copy in
every entry of `baseHeaders`, then every entry of `extraHeaders`. -/
def mergeHeaders (baseHeaders extraHeaders : List (String × String)) :
    List (String × String) :=
  extraHeaders.foldl (fun acc p => hdrInsert acc p.1 p.2)
    (baseHeaders.foldl (fun acc p => hdrInsert acc p.1 p.2) [])

/-- Left-biased choice on options, used to state lookup facts about merges. -/
def optOr (a b : Option String) : Option String :=
  match a with
  | some v => some v
  | none => b

/-! ### Lemmas about the header-map model -/

theorem hlookup_append (m l : List (String × String)) (key : String) :
    hlookup (m ++ l) key = optOr (hlookup m key) (hlookup l key) := by
  induction m with
  | nil => simp [hlookup, optOr]
  | cons p rest ih =>
    obtain ⟨k, v⟩ := p
    by_cases h : k = key <;> simp [hlookup, h, optOr, ih]

theorem hlookup_map_upd (m : List (String × String)) (k v key : String)
    (hne : key ≠ k) :
    hlookup (m.map (fun p => if p.1 = k then (k, v) else p)) key =
      hlookup m key := by
  induction m with
  | nil => simp [hlookup]
  | cons p rest ih =>
    obtain ⟨k0, v0⟩ := p
    by_cases h : k0 = k
    · subst h
      simp only [List.map_cons, if_pos rfl]
      simp [hlookup, Ne.symm hne, ih]
    · simp only [List.map_cons, if_neg h]
      by_cases h2 : k0 = key <;> simp [hlookup, h2, ih]

theorem hlookup_map_upd_self (m : List (String × String)) (k v : String)
    (hk : (hlookup m k).isSome) :
    hlookup (m.map (fun p => if p.1 = k then (k, v) else p)) k = some v := by
  induction m with
  | nil => simp [hlookup] at hk
  | cons p rest ih =>
    obtain ⟨k0, v0⟩ := p
    by_cases h : k0 = k
    · subst h
      simp only [List.map_cons, if_pos rfl]
      simp [hlookup]
    · simp only [List.map_cons, if_neg h]
      simp only [hlookup, if_neg h] at hk ⊢
      exact ih hk

theorem hlookup_hdrInsert (m : List (String × String)) (k v key : String) :
    hlookup (hdrInsert m k v) key =
      if key = k then some v else hlookup m key := by
  unfold hdrInsert
  by_cases hk : (hlookup m k).isSome
  · rw [if_pos hk]
    by_cases h : key = k
    · subst h; rw [if_pos rfl]; exact hlookup_map_upd_self m key v hk
    · rw [if_neg h]; exact hlookup_map_upd m k v key h
  · rw [if_neg hk]
    rw [hlookup_append]
    by_cases h : key = k
    · subst h
      have : hlookup m key = none := by
        cases hle : hlookup m key with
        | none => rfl
        | some w => rw [hle] at hk; simp at hk
      simp [this, optOr, hlookup, if_pos rfl]
    · simp only [if_neg h]
      have hkk : ¬ k = key := fun hh => h hh.symm
      have : hlookup [(k, v)] key = none := by
        simp [hlookup, hkk]
      rw [this]
      cases hlookup m key <;> simp [optOr]

theorem hlookup_eq_none_of_not_mem (m : List (String × String)) (key : String)
    (h : key ∉ m.map Prod.fst) : hlookup m key = none := by
  induction m with
  | nil => rfl
  | cons p rest ih =>
    obtain ⟨k, v⟩ := p
    simp only [List.map_cons, List.mem_cons] at h
    push_neg at h
    have hkk : ¬ k = key := fun hh => h.1 hh.symm
    simp [hlookup, hkk, ih h.2]

theorem hlookup_foldl_insert (l acc : List (String × String)) (key : String)
    (hl : WFH l) :
    hlookup (l.foldl (fun a p => hdrInsert a p.1 p.2) acc) key =
      optOr (hlookup l key) (hlookup acc key) := by
  induction l generalizing acc with
  | nil => simp [hlookup, optOr]
  | cons p rest ih =>
    obtain ⟨k, v⟩ := p
    unfold WFH at hl
    simp only [List.map_cons, List.nodup_cons] at hl
    simp only [List.foldl_cons]
    rw [ih (hdrInsert acc k v) hl.2]
    rw [hlookup_hdrInsert]
    by_cases h : key = k
    · subst h
      have : hlookup rest key = none := hlookup_eq_none_of_not_mem rest key hl.1
      simp [this, optOr, hlookup]
    · have hkk : ¬ k = key := fun hh => h hh.symm
      simp only [if_neg h, hlookup, if_neg hkk]

theorem hlookup_mergeHeaders (b e : List (String × String)) (key : String)
    (hb : WFH b) (he : WFH e) :
    hlookup (mergeHeaders b e) key = optOr (hlookup e key) (hlookup b key) := by
  unfold mergeHeaders
  rw [hlookup_foldl_insert e _ key he, hlookup_foldl_insert b [] key hb]
  simp [hlookup, optOr]
  cases hlookup e key <;> cases hlookup b key <;> simp [optOr]

/-- The provenance header wins regardless of the base map's shape: the
last insertion performed by `mergeHeaders` is the extra entry itself. -/
theorem hlookup_mergeHeaders_single (h : List (String × String)) (k a : String) :
    hlookup (mergeHeaders h [(k, a)]) k = some a := by
  unfold mergeHeaders
  simp only [List.foldl_cons, List.foldl_nil]
  rw [hlookup_hdrInsert]
  simp

/-! ### Canonical data model -/

/-- An X.509 certificate, reduced to its raw DER bytes (`cert.Raw`),
the only field this pipeline reads. -/
structure Cert where
  raw : List Nat
deriving DecidableEq

/-- A PKCS#7 signed-data envelope, reduced to its raw bytes (`block.Raw`). -/
structure SignedDataEnvelope where
  raw : List Nat
deriving DecidableEq

/-- `pem.Block`: type tag, payload bytes and header map. -/
structure PemBlock where
  type : String
  bytes : List Nat
  headers : List (String × String)
deriving DecidableEq

instance {α β : Type} [DecidableEq α] [DecidableEq β] : DecidableEq (Except α β) :=
  fun a b =>
    match a, b with
    | .ok x, .ok y =>
      if h : x = y then .isTrue (by rw [h]) else .isFalse (by intro hh; cases hh; exact h rfl)
    | .error x, .error y =>
      if h : x = y then .isTrue (by rw [h]) else .isFalse (by intro hh; cases hh; exact h rfl)
    | .ok _, .error _ => .isFalse (by intro hh; cases hh)
    | .error _, .ok _ => .isFalse (by intro hh; cases hh)

/-- `crypto.PrivateKey` as the closed set of cases `keyToPem` can meet:
an RSA key (carrying its PKCS#1 marshaling), an ECDSA key (carrying the
result of `x509.MarshalECPrivateKey`, which can fail), or any other key
(carrying its reflected type name). -/
inductive PrivateKey where
  | rsa (pkcs1 : List Nat)
  | ecdsa (sec1 : Except String (List Nat))
  | other (typeName : String)
deriving DecidableEq

/-- The reflected type name printed for a failing ECDSA marshal. -/
def ecdsaTypeName : String := "*ecdsa.PrivateKey"

/-- `EncodeX509ToPEM` from the source. -/
def EncodeX509ToPEM (cert : Cert) (headers : List (String × String)) : PemBlock :=
  { type := "CERTIFICATE", bytes := cert.raw, headers := headers }

/-- `pkcs7ToPem` from the source. -/
def pkcs7ToPem (block : SignedDataEnvelope) (headers : List (String × String)) :
    PemBlock :=
  { type := "PKCS7", bytes := block.raw, headers := headers }

/-- `keyToPem` from the source: RSA keys become `RSA PRIVATE KEY` blocks
holding the PKCS#1 bytes, ECDSA keys become `EC PRIVATE KEY` blocks
holding the SEC1 bytes (failing when the marshal fails), and every
other key is rejected with an error naming its type. -/
def keyToPem (key : PrivateKey) (headers : List (String × String)) :
    Except String PemBlock :=
  match key with
  | .rsa pkcs1 =>
    .ok { type := "RSA PRIVATE KEY", bytes := pkcs1, headers := headers }
  | .ecdsa sec1 =>
    match sec1 with
    | .ok raw => .ok { type := "EC PRIVATE KEY", bytes := raw, headers := headers }
    | .error _ => .error ("error marshaling key: " ++ ecdsaTypeName ++ "\n")
  | .other typeName => .error ("unknown key type: " ++ typeName ++ "\n")

/-- A JCEKS keystore as `readCertsFromStream` consumes one:
`certAliases` models `ListCerts`/`GetCert` (the source discards
`GetCert`'s error), and `keyAliases` models `ListPrivateKeys` together
with `GetPrivateKeyAndCerts`, whose outcome depends on the per-alias
password supplied. -/
structure KeyStore where
  certAliases : List (String × Cert)
  keyAliases : List (String × (String → Except String (PrivateKey × List Cert)))

/-- One input stream together with the outcomes of the external decode
capabilities on its contents: `bytes` feeds the 4-byte peek, `readAll`
is `ioutil.ReadAll`'s outcome, `pemBlocks` is the sequence of blocks
the PEM scanner yields, and the remaining fields are the results of
the x509 / pkcs7 / pkcs12 / jceks decoders on the stream's bytes. -/
structure InStream where
  bytes : List Nat
  readAll : Except String Unit
  pemBlocks : List PemBlock
  x509Certs : Except String (List Cert)
  pkcs7Blocks : Except String (List SignedDataEnvelope)
  pkcs12Pem : String → Except String (List PemBlock)
  jceksStore : String → Except String KeyStore

/-- Observable outcome of a reader call: blocks handed to the callback
(in order), lines written to stderr, and the returned error. -/
structure ReadResult where
  emitted : List PemBlock
  warnings : List String
  ret : Option String
deriving DecidableEq

/-- The provenance header map built at the top of `readCertsFromStream`:
the origin file, unless the input is anonymous or stdin. -/
def provenanceHeaders (filename : String) : List (String × String) :=
  if filename ≠ "" ∧ filename ≠ stdinName then [(fileHeader, filename)] else []

/-- The stderr line printed for an empty-or-misdecoded PKCS12 store. -/
def pkcs12Warning : String := "keystore appears to be empty or password was incorrect\n"

/-- The private-key half of the JCEKS case (source lines 202-215): for
each alias, decrypt the entry with the per-alias password, encode the
key, emit the key block followed by its chain certificates, aborting
with the error on any failure. Returns the blocks emitted before a
failure and the error, if any. -/
def jceksKeyLoop (headers : List (String × String)) (pw : String → String) :
    List (String × (String → Except String (PrivateKey × List Cert))) →
      List PemBlock × Option String
  | [] => ([], none)
  | (aliasName, entry) :: rest =>
    match entry (pw aliasName) with
    | .error e => ([], some ("error parsing keystore: " ++ e ++ "\n"))
    | .ok kc =>
      match keyToPem kc.1 (mergeHeaders headers [(nameHeader, aliasName)]) with
      | .error e => ([], some ("error reading key: " ++ e ++ "\n"))
      | .ok block =>
        let chain := kc.2.map (fun c =>
          EncodeX509ToPEM c (mergeHeaders headers [(nameHeader, aliasName)]))
        let r := jceksKeyLoop headers pw rest
        (block :: chain ++ r.1, r.2)

/-- `readCertsFromStream` from the source. Note that in the source only
the two DER success paths `return nil`; the PEM, PKCS12 and JCEKS
success paths fall through the switch to the final
`return fmt.Errorf("unknown file type: ...")`. -/
def readCertsFromStream (s : InStream) (filename format : String)
    (pw : String → String) : ReadResult :=
  let headers := provenanceHeaders filename
  if format = "PEM" then
    { emitted := s.pemBlocks.map (fun b =>
        { b with headers := mergeHeaders b.headers headers }),
      warnings := [],
      ret := some ("unknown file type: " ++ format ++ "\n") }
  else if format = "DER" then
    match s.readAll with
    | .error e =>
      { emitted := [], warnings := [],
        ret := some ("error reading input: " ++ e ++ "\n") }
    | .ok _ =>
      match s.x509Certs with
      | .ok certs =>
        { emitted := certs.map (fun c => EncodeX509ToPEM c headers),
          warnings := [], ret := none }
      | .error _ =>
        match s.pkcs7Blocks with
        | .ok blocks =>
          { emitted := blocks.map (fun b => pkcs7ToPem b headers),
            warnings := [], ret := none }
        | .error _ =>
          { emitted := [], warnings := [],
            ret := some "error parsing certificates from DER data\n" }
  else if format = "PKCS12" then
    match s.readAll with
    | .error e =>
      { emitted := [], warnings := [],
        ret := some ("error reading input: " ++ e ++ "\n") }
    | .ok _ =>
      match s.pkcs12Pem (pw "") with
      | .error _ =>
        { emitted := [], warnings := [pkcs12Warning],
          ret := some ("unknown file type: " ++ format ++ "\n") }
      | .ok blocks =>
        { emitted := blocks.map (fun b =>
            { b with headers := mergeHeaders b.headers headers }),
          warnings := if blocks.length = 0 then [pkcs12Warning] else [],
          ret := some ("unknown file type: " ++ format ++ "\n") }
  else if format = "JCEKS" then
    match s.jceksStore (pw "") with
    | .error e =>
      { emitted := [], warnings := [],
        ret := some ("error parsing keystore: " ++ e ++ "\n") }
    | .ok ks =>
      let certBlocks := ks.certAliases.map (fun ac =>
        EncodeX509ToPEM ac.2 (mergeHeaders headers [(nameHeader, ac.1)]))
      let kr := jceksKeyLoop headers pw ks.keyAliases
      { emitted := certBlocks ++ kr.1,
        warnings := [],
        ret := match kr.2 with
               | some e => some e
               | none => some ("unknown file type: " ++ format ++ "\n") }
  else
    { emitted := [], warnings := [],
      ret := some ("unknown file type: " ++ format ++ "\n") }

/-- An `*os.File` input: a display name plus the stream. -/
structure FileInput where
  name : String
  stream : InStream

/-- `ReadPEMFromFiles`: detect each file's format and decode it; a
detection failure returns immediately; the result of
`readCertsFromStream` is discarded, exactly as in the source. -/
def ReadPEMFromFiles : List FileInput → String → (String → String) → ReadResult
  | [], _, _ => { emitted := [], warnings := [], ret := none }
  | f :: rest, format, pw =>
    match formatForFile f.stream.bytes f.name format with
    | .error _ =>
      { emitted := [], warnings := [],
        ret := some ("unable to guess file type (for file " ++ f.name ++ ")\n") }
    | .ok g =>
      let r := readCertsFromStream f.stream f.name g pw
      let rr := ReadPEMFromFiles rest format pw
      { emitted := r.emitted ++ rr.emitted,
        warnings := r.warnings ++ rr.warnings,
        ret := rr.ret }

/-- `ReadPEM`: as `ReadPEMFromFiles` but over anonymous streams (empty
file name). -/
def ReadPEM : List InStream → String → (String → String) → ReadResult
  | [], _, _ => { emitted := [], warnings := [], ret := none }
  | s :: rest, format, pw =>
    match formatForFile s.bytes "" format with
    | .error _ =>
      { emitted := [], warnings := [],
        ret := some "unable to guess format for input stream" }
    | .ok g =>
      let r := readCertsFromStream s "" g pw
      let rr := ReadPEM rest format pw
      { emitted := r.emitted ++ rr.emitted,
        warnings := r.warnings ++ rr.warnings,
        ret := rr.ret }

/-! ### The PEM block scanner

`pemScanner` wraps a `bufio.Scanner` whose split function calls
`pem.Decode` on the buffered data: when a block is found, the token is
the consumed byte range `data[:len(data)-len(rest)]`. `pem.Decode`
itself is external (`encoding/pem`); it is modelled here at line
granularity, faithful to its documented behaviour: skip leading
non-PEM data, take the first BEGIN line, find the matching END line
(intervening lines are the block body), and return the block together
with the data following the END line; when a BEGIN line has no
matching END, scanning resumes after that BEGIN line. -/

/-- One line of PEM-ish input. -/
inductive PemLine where
  | junk (s : String)
  | blockBegin (ty : String)
  | blockEnd (ty : String)
deriving DecidableEq

/-- A block located by the modelled `pem.Decode`: its type and body lines. -/
structure ScannedBlock where
  ty : String
  body : List PemLine
deriving DecidableEq

/-- Find the END line matching the given type: the lines before it (the
block body) and the lines after it. -/
def findEnd (ty : String) : List PemLine → Option (List PemLine × List PemLine)
  | [] => none
  | l :: rest =>
    match l with
    | .blockEnd ty2 =>
      if ty2 = ty then some ([], rest)
      else (findEnd ty rest).map (fun br => (l :: br.1, br.2))
    | _ => (findEnd ty rest).map (fun br => (l :: br.1, br.2))

/-- Model of `pem.Decode`: the first decodable block and the remaining
lines after it, or `none` when no block decodes. -/
def pemDecode : List PemLine → Option (ScannedBlock × List PemLine)
  | [] => none
  | l :: rest =>
    match l with
    | .blockBegin ty =>
      match findEnd ty rest with
      | some br => some (⟨ty, br.1⟩, br.2)
      | none => pemDecode rest
    | _ => pemDecode rest

theorem findEnd_shape (ty : String) (ls b r : List PemLine)
    (h : findEnd ty ls = some (b, r)) :
    ls = b ++ PemLine.blockEnd ty :: r := by
  induction ls generalizing b r with
  | nil => simp [findEnd] at h
  | cons l rest ih =>
    cases l with
    | blockEnd ty2 =>
      by_cases hty : ty2 = ty
      · subst hty
        simp only [findEnd, if_pos rfl] at h
        injection h with h2
        cases h2
        simp
      · simp only [findEnd, if_neg hty] at h
        rw [Option.map_eq_some'] at h
        obtain ⟨⟨b0, r0⟩, hfe, hfx⟩ := h
        cases hfx
        rw [ih b0 r0 hfe]
        simp
    | junk s =>
      simp only [findEnd] at h
      rw [Option.map_eq_some'] at h
      obtain ⟨⟨b0, r0⟩, hfe, hfx⟩ := h
      cases hfx
      rw [ih b0 r0 hfe]
      simp
    | blockBegin ty2 =>
      simp only [findEnd] at h
      rw [Option.map_eq_some'] at h
      obtain ⟨⟨b0, r0⟩, hfe, hfx⟩ := h
      cases hfx
      rw [ih b0 r0 hfe]
      simp

theorem findEnd_self (ty : String) (ls b r : List PemLine)
    (h : findEnd ty ls = some (b, r)) :
    findEnd ty (b ++ [PemLine.blockEnd ty]) = some (b, []) := by
  induction ls generalizing b r with
  | nil => simp [findEnd] at h
  | cons l rest ih =>
    cases l with
    | blockEnd ty2 =>
      by_cases hty : ty2 = ty
      · subst hty
        simp only [findEnd, if_pos rfl] at h
        injection h with h2
        cases h2
        simp [findEnd]
      · simp only [findEnd, if_neg hty] at h
        rw [Option.map_eq_some'] at h
        obtain ⟨⟨b0, r0⟩, hfe, hfx⟩ := h
        cases hfx
        have := ih b0 r0 hfe
        simp [findEnd, hty, this]
    | junk s =>
      simp only [findEnd] at h
      rw [Option.map_eq_some'] at h
      obtain ⟨⟨b0, r0⟩, hfe, hfx⟩ := h
      cases hfx
      have := ih b0 r0 hfe
      simp [findEnd, this]
    | blockBegin ty2 =>
      simp only [findEnd] at h
      rw [Option.map_eq_some'] at h
      obtain ⟨⟨b0, r0⟩, hfe, hfx⟩ := h
      cases hfx
      have := ih b0 r0 hfe
      simp [findEnd, this]

theorem findEnd_none_take (ty : String) (ls : List PemLine)
    (h : findEnd ty ls = none) (n : Nat) :
    findEnd ty (ls.take n) = none := by
  induction ls generalizing n with
  | nil => simp [findEnd]
  | cons l rest ih =>
    cases n with
    | zero => simp [findEnd]
    | succ m =>
      cases l with
      | blockEnd ty2 =>
        by_cases hty : ty2 = ty
        · subst hty; simp [findEnd] at h
        · simp only [findEnd, if_neg hty, Option.map_eq_none'] at h
          simp only [List.take_succ_cons, findEnd, if_neg hty, Option.map_eq_none']
          exact ih h m
      | junk s =>
        simp only [findEnd, Option.map_eq_none'] at h
        simp only [List.take_succ_cons, findEnd, Option.map_eq_none']
        exact ih h m
      | blockBegin ty2 =>
        simp only [findEnd, Option.map_eq_none'] at h
        simp only [List.take_succ_cons, findEnd, Option.map_eq_none']
        exact ih h m

theorem pemDecode_rest_lt (d : List PemLine) (b : ScannedBlock) (r : List PemLine)
    (h : pemDecode d = some (b, r)) : r.length < d.length := by
  induction d generalizing b r with
  | nil => simp [pemDecode] at h
  | cons l rest ih =>
    cases l with
    | blockBegin ty =>
      cases hfe : findEnd ty rest with
      | some br =>
        obtain ⟨b0, r0⟩ := br
        simp only [pemDecode, hfe] at h
        rw [Option.some_inj, Prod.mk.injEq] at h
        obtain ⟨hb, hr⟩ := h
        subst hr
        have hshape := findEnd_shape ty rest b0 r0 hfe
        subst hshape
        simp
        omega
      | none =>
        simp only [pemDecode, hfe] at h
        have := ih b r h
        simp
        omega
    | junk s =>
      simp only [pemDecode] at h
      have := ih b r h
      simp
      omega
    | blockEnd ty =>
      simp only [pemDecode] at h
      have := ih b r h
      simp
      omega

theorem take_append_len {α : Type} (a b : List α) (n : Nat) :
    (a ++ b).take (a.length + n) = a ++ b.take n := by
  induction a with
  | nil => simp
  | cons x xs ih => simp [List.take, ih, Nat.succ_add]

/-- Prefix stability of the modelled `pem.Decode`: decoding the consumed
byte range again finds the same block, with nothing left over. -/
theorem pemDecode_take (d : List PemLine) (b : ScannedBlock) (r : List PemLine)
    (h : pemDecode d = some (b, r)) :
    pemDecode (d.take (d.length - r.length)) = some (b, []) := by
  induction d generalizing b r with
  | nil => simp [pemDecode] at h
  | cons l rest ih =>
    cases l with
    | blockBegin ty =>
      cases hfe : findEnd ty rest with
      | some br =>
        obtain ⟨b0, r0⟩ := br
        simp only [pemDecode, hfe] at h
        rw [Option.some_inj, Prod.mk.injEq] at h
        obtain ⟨hb, hr⟩ := h
        subst hb
        subst hr
        have hshape := findEnd_shape ty rest b0 r0 hfe
        have hlen : (PemLine.blockBegin ty :: rest).length - r0.length
            = b0.length + 1 + 1 := by
          subst hshape; simp; omega
        rw [hlen, List.take_succ_cons]
        have htake : rest.take (b0.length + 1) = b0 ++ [PemLine.blockEnd ty] := by
          rw [hshape]
          have hsplit : b0 ++ PemLine.blockEnd ty :: r0
              = (b0 ++ [PemLine.blockEnd ty]) ++ r0 := by simp
          rw [hsplit]
          have hl : b0.length + 1 = (b0 ++ [PemLine.blockEnd ty]).length + 0 := by
            simp
          rw [hl, take_append_len]
          simp
        rw [htake]
        have hfe2 := findEnd_self ty rest b0 r0 hfe
        simp [pemDecode, hfe2]
      | none =>
        simp only [pemDecode, hfe] at h
        have hlt := pemDecode_rest_lt rest b r h
        have hlen : (PemLine.blockBegin ty :: rest).length - r.length
            = (rest.length - r.length) + 1 := by simp; omega
        rw [hlen, List.take_succ_cons]
        have hfe2 : findEnd ty (rest.take (rest.length - r.length)) = none :=
          findEnd_none_take ty rest hfe _
        simp only [pemDecode, hfe2]
        exact ih b r h
    | junk s =>
      simp only [pemDecode] at h
      have hlt := pemDecode_rest_lt rest b r h
      have hlen : (PemLine.junk s :: rest).length - r.length
          = (rest.length - r.length) + 1 := by simp; omega
      rw [hlen, List.take_succ_cons]
      simp only [pemDecode]
      exact ih b r h
    | blockEnd ty =>
      simp only [pemDecode] at h
      have hlt := pemDecode_rest_lt rest b r h
      have hlen : (PemLine.blockEnd ty :: rest).length - r.length
          = (rest.length - r.length) + 1 := by simp; omega
      rw [hlen, List.take_succ_cons]
      simp only [pemDecode]
      exact ih b r h


def pemTokens (data : List PemLine) : List (List PemLine) :=
  match h : pemDecode data with
  | none => []
  | some br => data.take (data.length - br.2.length) :: pemTokens br.2
termination_by data.length
decreasing_by exact pemDecode_rest_lt data br.1 br.2 h

theorem pemTokens_none (data : List PemLine) (hd : pemDecode data = none) :
    pemTokens data = [] := by
  unfold pemTokens
  split
  · rfl
  · rename_i br heq
    rw [hd] at heq
    cases heq

theorem pemTokens_some (data : List PemLine) (blk : ScannedBlock)
    (rest : List PemLine) (hd : pemDecode data = some (blk, rest)) :
    pemTokens data = data.take (data.length - rest.length) :: pemTokens rest := by
  conv_lhs => unfold pemTokens
  split
  · rename_i heq
    rw [hd] at heq
    cases heq
  · rename_i br heq
    rw [hd] at heq
    injection heq with h2
    subst h2
    rfl

theorem pemTokens_decode_aux (n : Nat) :
    ∀ data tok : List PemLine, data.length ≤ n → tok ∈ pemTokens data →
      ∃ blk, pemDecode tok = some (blk, []) := by
  induction n with
  | zero =>
    intro data tok hlen hm
    cases data with
    | nil =>
      rw [pemTokens_none [] rfl] at hm
      simp at hm
    | cons a as => simp at hlen
  | succ m ih =>
    intro data tok hlen hm
    cases hd : pemDecode data with
    | none =>
      rw [pemTokens_none data hd] at hm
      simp at hm
    | some br =>
      obtain ⟨blk, rest⟩ := br
      rw [pemTokens_some data blk rest hd] at hm
      rcases List.mem_cons.mp hm with h1 | h2
      · subst h1
        exact ⟨blk, pemDecode_take data blk rest hd⟩
      · have hlt := pemDecode_rest_lt data blk rest hd
        exact ih rest tok (by omega) h2

/-- C10: every token the PEM scanner's split function produces is a
range of the input on which the (modelled) `pem.Decode` has already
located a block, and decoding that token again yields the same block
with nothing left over — so the second `pem.Decode` inside
`readCertsFromStream` is never nil and the write to `block.Headers`
is safe. -/
theorem c10_scanner_tokens_decode (data tok : List PemLine)
    (h : tok ∈ pemTokens data) :
    ∃ blk, pemDecode tok = some (blk, []) :=
  pemTokens_decode_aux data.length data tok (Nat.le_refl _) h

theorem c10_scanner_tokens_decode_witness :
    ([PemLine.junk "garbage", PemLine.blockBegin "CERTIFICATE",
        PemLine.junk "MIIB", PemLine.blockEnd "CERTIFICATE"]
      ∈ pemTokens [PemLine.junk "garbage", PemLine.blockBegin "CERTIFICATE",
        PemLine.junk "MIIB", PemLine.blockEnd "CERTIFICATE",
        PemLine.junk "trailing"]) ∧
    ∃ blk, pemDecode [PemLine.junk "garbage", PemLine.blockBegin "CERTIFICATE",
        PemLine.junk "MIIB", PemLine.blockEnd "CERTIFICATE"] = some (blk, []) := by
  have hmem : [PemLine.junk "garbage", PemLine.blockBegin "CERTIFICATE",
      PemLine.junk "MIIB", PemLine.blockEnd "CERTIFICATE"]
      ∈ pemTokens [PemLine.junk "garbage", PemLine.blockBegin "CERTIFICATE",
        PemLine.junk "MIIB", PemLine.blockEnd "CERTIFICATE",
        PemLine.junk "trailing"] := by
    rw [pemTokens_some _ ⟨"CERTIFICATE", [PemLine.junk "MIIB"]⟩ [PemLine.junk "trailing"]
      (by decide)]
    simp
  exact ⟨hmem, c10_scanner_tokens_decode _ _ hmem⟩

/-! ### Concrete streams used to exercise the batch loop -/

/-- A stream whose bytes parse as neither X.509 nor PKCS#7. -/
def derFailStream : InStream :=
  { bytes := [], readAll := .ok (), pemBlocks := [],
    x509Certs := .error "asn1 syntax error", pkcs7Blocks := .error "asn1 syntax error",
    pkcs12Pem := fun _ => .error "unused", jceksStore := fun _ => .error "unused" }

/-- A stream whose bytes parse as one X.509 certificate. -/
def derOkStream : InStream :=
  { bytes := [], readAll := .ok (), pemBlocks := [],
    x509Certs := .ok [{ raw := [1, 2, 3] }], pkcs7Blocks := .error "unused",
    pkcs12Pem := fun _ => .error "unused", jceksStore := fun _ => .error "unused" }

/-- C1 (code bug): the decoder for the first input reports the fatal DER
parse error, yet `ReadPEM` discards `readCertsFromStream`'s result (as
do all four reader functions in the source), decodes the second input
anyway, and returns nil — the error never reaches the caller and the
remaining inputs are still processed. -/
theorem c1_decoder_error_discarded :
    (readCertsFromStream derFailStream "" "DER" (fun _ => "")).ret
      = some "error parsing certificates from DER data\n" ∧
    ReadPEM [derFailStream, derOkStream] "DER" (fun _ => "")
      = { emitted := [{ type := "CERTIFICATE", bytes := [1, 2, 3], headers := [] }],
          warnings := [], ret := none } := by
  constructor
  · rfl
  · rfl

/-- C2 counterexample: the input bytes `30 82 AA 03` match the claimed
DER pattern `0x3082xx03` (fourth byte `0x03`) but resolve to PKCS12,
while `30 82 03 AA` (fourth byte not `0x03`) resolves to DER — the
source tests the third byte, not the fourth. -/
theorem c2_counterexample :
    formatForFile [0x30, 0x82, 0xAA, 0x03] "" "" = .ok "PKCS12" ∧
    formatForFile [0x30, 0x82, 0x03, 0xAA] "" "" = .ok "DER" := by
  constructor
  · rfl
  · rfl

theorem formatForFile_magic (name : String)
    (hext : fileExtToFormat (strLower (filepathExt name)) = none)
    (b0 b1 b2 b3 : Nat) (rest : List Nat) :
    formatForFile (b0 :: b1 :: b2 :: b3 :: rest) name ""
      = guessFromMagic (beUint32 b0 b1 b2 b3) := by
  simp [formatForFile, hext, peek4]

/-- C2 (amended): with no hint and no recognized extension, the 4-byte
big-endian magic resolves `0xCECECECE`/`0xFEEDFEED` to JCEKS,
`0x2D2D2D2D`/`0x434F4E4E` to PEM, `0x3082` with THIRD byte `0x03`
(pattern `0x308203xx`) to DER, and any other `0x3082`-prefixed value to
PKCS12 — independent of the filename. -/
theorem c2_amended_magic_table (name : String)
    (hext : fileExtToFormat (strLower (filepathExt name)) = none)
    (x y : Nat) (hx : x < 256) (hy : y < 256) (hx3 : x ≠ 3) :
    formatForFile [0xCE, 0xCE, 0xCE, 0xCE] name "" = .ok "JCEKS" ∧
    formatForFile [0xFE, 0xED, 0xFE, 0xED] name "" = .ok "JCEKS" ∧
    formatForFile [0x2D, 0x2D, 0x2D, 0x2D] name "" = .ok "PEM" ∧
    formatForFile [0x43, 0x4F, 0x4E, 0x4E] name "" = .ok "PEM" ∧
    formatForFile [0x30, 0x82, 0x03, y] name "" = .ok "DER" ∧
    formatForFile [0x30, 0x82, x, y] name "" = .ok "PKCS12" := by
  refine ⟨?_, ?_, ?_, ?_, ?_, ?_⟩
  · rw [formatForFile_magic name hext _ _ _ _ []]; rfl
  · rw [formatForFile_magic name hext _ _ _ _ []]; rfl
  · rw [formatForFile_magic name hext _ _ _ _ []]; rfl
  · rw [formatForFile_magic name hext _ _ _ _ []]; rfl
  · rw [formatForFile_magic name hext _ _ _ _ []]
    unfold guessFromMagic beUint32
    rw [if_neg (by omega), if_neg (by omega), if_pos (by omega), if_pos (by omega)]
  · rw [formatForFile_magic name hext _ _ _ _ []]
    unfold guessFromMagic beUint32
    rw [if_neg (by omega), if_neg (by omega), if_pos (by omega), if_neg (by omega)]

theorem c2_amended_magic_table_witness :
    (fileExtToFormat (strLower (filepathExt "input.bin")) = none ∧
      (0xAA : Nat) < 256 ∧ (5 : Nat) < 256 ∧ (0xAA : Nat) ≠ 3) ∧
    (formatForFile [0xCE, 0xCE, 0xCE, 0xCE] "input.bin" "" = .ok "JCEKS" ∧
      formatForFile [0xFE, 0xED, 0xFE, 0xED] "input.bin" "" = .ok "JCEKS" ∧
      formatForFile [0x2D, 0x2D, 0x2D, 0x2D] "input.bin" "" = .ok "PEM" ∧
      formatForFile [0x43, 0x4F, 0x4E, 0x4E] "input.bin" "" = .ok "PEM" ∧
      formatForFile [0x30, 0x82, 0x03, 5] "input.bin" "" = .ok "DER" ∧
      formatForFile [0x30, 0x82, 0xAA, 5] "input.bin" "" = .ok "PKCS12") :=
  ⟨⟨by decide, by decide, by decide, by decide⟩,
    c2_amended_magic_table "input.bin" (by decide) 0xAA 5
      (by decide) (by decide) (by decide)⟩

/-- C5: a non-empty explicit hint is returned verbatim whatever the
stream or filename holds; with no hint, a recognized extension decides
the format without the stream being peeked (the conclusion holds for
every stream); in particular a `.pem`-named file whose bytes look like
DER still resolves to PEM. -/
theorem c5_precedence (stream : List Nat) (name format g : String)
    (hfmt : format ≠ "")
    (hext : fileExtToFormat (strLower (filepathExt name)) = some g) :
    formatForFile stream name format = .ok format ∧
    formatForFile stream name "" = .ok g ∧
    formatForFile stream "bundle.pem" "" = .ok "PEM" := by
  refine ⟨?_, ?_, ?_⟩
  · simp [formatForFile, hfmt]
  · simp [formatForFile, hext]
  · have hp : fileExtToFormat (strLower (filepathExt "bundle.pem")) = some "PEM" := by
      decide
    simp [formatForFile, hp]

theorem c5_precedence_witness :
    ("JCEKS" : String) ≠ "" ∧
    fileExtToFormat (strLower (filepathExt "store.p12")) = some "PKCS12" ∧
    (formatForFile [0x30, 0x82, 0x03, 0x01] "store.p12" "JCEKS" = .ok "JCEKS" ∧
      formatForFile [0x30, 0x82, 0x03, 0x01] "store.p12" "" = .ok "PKCS12" ∧
      formatForFile [0x30, 0x82, 0x03, 0x01] "bundle.pem" "" = .ok "PEM") :=
  ⟨by decide, by decide,
    c5_precedence [0x30, 0x82, 0x03, 0x01] "store.p12" "JCEKS" "PKCS12"
      (by decide) (by decide)⟩

/-- C6: `mergeHeaders` looks up to the extra map first and the base map
second: its key set is the union of the two key sets, a key present in
`extra` maps to `extra`'s value, and a key absent from `extra` maps to
`base`'s value. (Purity and determinism are intrinsic: the embedding is
a function of its arguments and builds a fresh list.) -/
theorem c6_mergeHeaders_union_override (b e : List (String × String))
    (k v : String) (hb : WFH b) (he : WFH e) :
    (hlookup (mergeHeaders b e) k = optOr (hlookup e k) (hlookup b k)) ∧
    ((hlookup (mergeHeaders b e) k).isSome
        ↔ (hlookup b k).isSome ∨ (hlookup e k).isSome) ∧
    (hlookup e k = some v → hlookup (mergeHeaders b e) k = some v) ∧
    (hlookup e k = none → hlookup (mergeHeaders b e) k = hlookup b k) := by
  have hm := hlookup_mergeHeaders b e k hb he
  refine ⟨hm, ?_, ?_, ?_⟩
  · rw [hm]; cases hlookup e k <;> cases hlookup b k <;> simp [optOr]
  · intro hh; rw [hm, hh]; rfl
  · intro hh; rw [hm, hh]; rfl

theorem c6_mergeHeaders_union_override_witness :
    (WFH [(fileHeader, "a.pem"), ("k", "base")] ∧ WFH [("k", "extra")]) ∧
    ((hlookup (mergeHeaders [(fileHeader, "a.pem"), ("k", "base")] [("k", "extra")]) "k"
        = optOr (hlookup [("k", "extra")] "k")
            (hlookup [(fileHeader, "a.pem"), ("k", "base")] "k")) ∧
      ((hlookup (mergeHeaders [(fileHeader, "a.pem"), ("k", "base")] [("k", "extra")]) "k").isSome
          ↔ (hlookup [(fileHeader, "a.pem"), ("k", "base")] "k").isSome
            ∨ (hlookup [("k", "extra")] "k").isSome) ∧
      (hlookup [("k", "extra")] "k" = some "extra" →
        hlookup (mergeHeaders [(fileHeader, "a.pem"), ("k", "base")] [("k", "extra")]) "k"
          = some "extra") ∧
      (hlookup [("k", "extra")] "k" = none →
        hlookup (mergeHeaders [(fileHeader, "a.pem"), ("k", "base")] [("k", "extra")]) "k"
          = hlookup [(fileHeader, "a.pem"), ("k", "base")] "k")) :=
  ⟨⟨by decide, by decide⟩,
    c6_mergeHeaders_union_override [(fileHeader, "a.pem"), ("k", "base")]
      [("k", "extra")] "k" "extra" (by decide) (by decide)⟩

/-- C8: `keyToPem` supports exactly the RSA and EC variants — an RSA key
yields an `RSA PRIVATE KEY` block holding its PKCS#1 bytes, an EC key
whose SEC1 marshaling succeeds yields an `EC PRIVATE KEY` block holding
those bytes, and any other key variant yields an error naming the
unrecognized type and no block. -/
theorem c8_keyToPem_variants (h : List (String × String)) (p raw : List Nat)
    (m : Except String (List Nat)) (t : String) (hm : m = .ok raw) :
    keyToPem (.rsa p) h = .ok { type := "RSA PRIVATE KEY", bytes := p, headers := h } ∧
    keyToPem (.ecdsa m) h = .ok { type := "EC PRIVATE KEY", bytes := raw, headers := h } ∧
    keyToPem (.other t) h = .error ("unknown key type: " ++ t ++ "\n") := by
  subst hm
  exact ⟨rfl, rfl, rfl⟩

theorem c8_keyToPem_variants_witness :
    ((.ok [2] : Except String (List Nat)) = .ok [2]) ∧
    (keyToPem (.rsa [1]) [] = .ok { type := "RSA PRIVATE KEY", bytes := [1], headers := [] } ∧
      keyToPem (.ecdsa (.ok [2])) [] = .ok { type := "EC PRIVATE KEY", bytes := [2], headers := [] } ∧
      keyToPem (.other "*dsa.PrivateKey") []
        = .error ("unknown key type: " ++ "*dsa.PrivateKey" ++ "\n")) :=
  ⟨rfl, c8_keyToPem_variants [] [1] [2] (.ok [2]) "*dsa.PrivateKey" rfl⟩

/-- C3: a PKCS12 input whose store decode fails, or decodes to zero
entries, emits no blocks, surfaces the "empty or password was
incorrect" warning on stderr, and does not stop the batch: the
remaining files are processed exactly as if the failing file were
absent (only the warning is added). -/
theorem c3_pkcs12_warn_continue (f : FileInput) (rest : List FileInput)
    (pw : String → String) (err : String)
    (hext : fileExtToFormat (strLower (filepathExt f.name)) = some "PKCS12")
    (hread : f.stream.readAll = .ok ())
    (hdec : f.stream.pkcs12Pem (pw "") = .error err
      ∨ f.stream.pkcs12Pem (pw "") = .ok []) :
    (readCertsFromStream f.stream f.name "PKCS12" pw).emitted = [] ∧
    (readCertsFromStream f.stream f.name "PKCS12" pw).warnings = [pkcs12Warning] ∧
    ReadPEMFromFiles (f :: rest) "" pw
      = { emitted := (ReadPEMFromFiles rest "" pw).emitted,
          warnings := pkcs12Warning :: (ReadPEMFromFiles rest "" pw).warnings,
          ret := (ReadPEMFromFiles rest "" pw).ret } := by
  have hr : readCertsFromStream f.stream f.name "PKCS12" pw
      = { emitted := [], warnings := [pkcs12Warning],
          ret := some ("unknown file type: " ++ "PKCS12" ++ "\n") } := by
    rcases hdec with hdec | hdec <;> simp [readCertsFromStream, hread, hdec]
  have hf : formatForFile f.stream.bytes f.name "" = .ok "PKCS12" := by
    simp [formatForFile, hext]
  refine ⟨by rw [hr], by rw [hr], ?_⟩
  simp [ReadPEMFromFiles, hf, hr]

/-- A PKCS12 stream whose store decode fails (wrong password). -/
def pkcs12StreamW : InStream :=
  { bytes := [], readAll := .ok (), pemBlocks := [],
    x509Certs := .error "unused", pkcs7Blocks := .error "unused",
    pkcs12Pem := fun _ => .error "pkcs12: decryption password incorrect",
    jceksStore := fun _ => .error "unused" }

theorem c3_pkcs12_warn_continue_witness :
    (fileExtToFormat (strLower (filepathExt "store.p12")) = some "PKCS12" ∧
      pkcs12StreamW.readAll = .ok () ∧
      (pkcs12StreamW.pkcs12Pem "guess" = .error "pkcs12: decryption password incorrect"
        ∨ pkcs12StreamW.pkcs12Pem "guess" = .ok [])) ∧
    ((readCertsFromStream pkcs12StreamW "store.p12" "PKCS12" (fun _ => "guess")).emitted = [] ∧
      (readCertsFromStream pkcs12StreamW "store.p12" "PKCS12" (fun _ => "guess")).warnings
        = [pkcs12Warning] ∧
      ReadPEMFromFiles [⟨"store.p12", pkcs12StreamW⟩] "" (fun _ => "guess")
        = { emitted := (ReadPEMFromFiles [] "" (fun _ => "guess")).emitted,
            warnings := pkcs12Warning :: (ReadPEMFromFiles [] "" (fun _ => "guess")).warnings,
            ret := (ReadPEMFromFiles [] "" (fun _ => "guess")).ret }) :=
  ⟨⟨by decide, rfl, Or.inl rfl⟩,
    c3_pkcs12_warn_continue ⟨"store.p12", pkcs12StreamW⟩ [] (fun _ => "guess")
      "pkcs12: decryption password incorrect" (by decide) rfl (Or.inl rfl)⟩

/-- C4: for every JCEKS store that loads, the emitted sequence is
exactly the certificate-alias blocks (in alias order) followed by the
private-key loop's blocks, so all certificate-alias blocks precede all
private-key blocks; within one private-key alias the key's own block
precedes its chain certificates, in chain order; every alias-tagged
block's `friendlyName` header equals its alias; and a store with a
single private-key alias holding a two-certificate chain emits exactly
one key block followed by the two certificate blocks. -/
theorem c4_jceks_emission_order (s : InStream) (fn : String)
    (pw : String → String) (ks : KeyStore) (aliasName : String)
    (entry : String → Except String (PrivateKey × List Cert))
    (p : List Nat) (c1 c2 : Cert)
    (hload : s.jceksStore (pw "") = .ok ks) :
    ((readCertsFromStream s fn "JCEKS" pw).emitted
        = ks.certAliases.map (fun ac =>
            EncodeX509ToPEM ac.2 (mergeHeaders (provenanceHeaders fn) [(nameHeader, ac.1)]))
          ++ (jceksKeyLoop (provenanceHeaders fn) pw ks.keyAliases).1) ∧
    (∀ (hs : List (String × String)) (a2 : String)
        (e2 : String → Except String (PrivateKey × List Cert))
        (rest2 : List (String × (String → Except String (PrivateKey × List Cert))))
        (kc : PrivateKey × List Cert) (blk : PemBlock),
        e2 (pw a2) = .ok kc →
        keyToPem kc.1 (mergeHeaders hs [(nameHeader, a2)]) = .ok blk →
        jceksKeyLoop hs pw ((a2, e2) :: rest2)
          = (blk :: kc.2.map (fun c =>
                EncodeX509ToPEM c (mergeHeaders hs [(nameHeader, a2)]))
              ++ (jceksKeyLoop hs pw rest2).1,
             (jceksKeyLoop hs pw rest2).2)) ∧
    (ks.certAliases = [] → ks.keyAliases = [(aliasName, entry)] →
      entry (pw aliasName) = .ok (.rsa p, [c1, c2]) →
      (readCertsFromStream s fn "JCEKS" pw).emitted
        = [{ type := "RSA PRIVATE KEY", bytes := p,
             headers := mergeHeaders (provenanceHeaders fn) [(nameHeader, aliasName)] },
           EncodeX509ToPEM c1 (mergeHeaders (provenanceHeaders fn) [(nameHeader, aliasName)]),
           EncodeX509ToPEM c2 (mergeHeaders (provenanceHeaders fn) [(nameHeader, aliasName)])]) ∧
    (∀ (hs : List (String × String)) (a : String),
        hlookup (mergeHeaders hs [(nameHeader, a)]) nameHeader = some a) := by
  refine ⟨?_, ?_, ?_, ?_⟩
  · simp [readCertsFromStream, hload]
  · intro hs a2 e2 rest2 kc blk he2 hktp
    simp [jceksKeyLoop, he2, hktp]
  · intro hks1 hks2 hentry
    simp [readCertsFromStream, hload, hks1, hks2, jceksKeyLoop, hentry, keyToPem,
      EncodeX509ToPEM]
  · intro hs a
    exact hlookup_mergeHeaders_single hs nameHeader a

/-- The JCEKS keystore used as a witness: one certificate alias plus one
private-key alias holding an RSA key with a two-certificate chain. -/
def jceksKsW : KeyStore :=
  { certAliases := [("ca", { raw := [7] })],
    keyAliases := [("server", fun _ => .ok (.rsa [9], [{ raw := [1] }, { raw := [2] }]))] }

/-- A stream that loads as `jceksKsW`. -/
def jceksStreamW : InStream :=
  { bytes := [], readAll := .ok (), pemBlocks := [],
    x509Certs := .error "unused", pkcs7Blocks := .error "unused",
    pkcs12Pem := fun _ => .error "unused", jceksStore := fun _ => .ok jceksKsW }

theorem c4_jceks_emission_order_witness :
    (jceksStreamW.jceksStore ((fun _ : String => "pw") "") = .ok jceksKsW) ∧
    (((readCertsFromStream jceksStreamW "ks.jceks" "JCEKS" (fun _ => "pw")).emitted
        = jceksKsW.certAliases.map (fun ac =>
            EncodeX509ToPEM ac.2
              (mergeHeaders (provenanceHeaders "ks.jceks") [(nameHeader, ac.1)]))
          ++ (jceksKeyLoop (provenanceHeaders "ks.jceks") (fun _ => "pw")
                jceksKsW.keyAliases).1) ∧
      (∀ (hs : List (String × String)) (a2 : String)
          (e2 : String → Except String (PrivateKey × List Cert))
          (rest2 : List (String × (String → Except String (PrivateKey × List Cert))))
          (kc : PrivateKey × List Cert) (blk : PemBlock),
          e2 ((fun _ : String => "pw") a2) = .ok kc →
          keyToPem kc.1 (mergeHeaders hs [(nameHeader, a2)]) = .ok blk →
          jceksKeyLoop hs (fun _ => "pw") ((a2, e2) :: rest2)
            = (blk :: kc.2.map (fun c =>
                  EncodeX509ToPEM c (mergeHeaders hs [(nameHeader, a2)]))
                ++ (jceksKeyLoop hs (fun _ => "pw") rest2).1,
               (jceksKeyLoop hs (fun _ => "pw") rest2).2)) ∧
      (jceksKsW.certAliases = [] →
        jceksKsW.keyAliases
          = [("server", fun _ => .ok (.rsa [9], [{ raw := [1] }, { raw := [2] }]))] →
        (fun (_ : String) => (.ok (.rsa [9], [({ raw := [1] } : Cert), { raw := [2] }])
            : Except String (PrivateKey × List Cert))) ((fun _ : String => "pw") "server")
          = .ok (.rsa [9], [{ raw := [1] }, { raw := [2] }]) →
        (readCertsFromStream jceksStreamW "ks.jceks" "JCEKS" (fun _ => "pw")).emitted
          = [{ type := "RSA PRIVATE KEY", bytes := [9],
               headers := mergeHeaders (provenanceHeaders "ks.jceks")
                 [(nameHeader, "server")] },
             EncodeX509ToPEM { raw := [1] }
               (mergeHeaders (provenanceHeaders "ks.jceks") [(nameHeader, "server")]),
             EncodeX509ToPEM { raw := [2] }
               (mergeHeaders (provenanceHeaders "ks.jceks") [(nameHeader, "server")])]) ∧
      (∀ (hs : List (String × String)) (a : String),
          hlookup (mergeHeaders hs [(nameHeader, a)]) nameHeader = some a)) ∧
    ((readCertsFromStream jceksStreamW "ks.jceks" "JCEKS" (fun _ => "pw")).emitted.map
        PemBlock.type
      = ["CERTIFICATE", "RSA PRIVATE KEY", "CERTIFICATE", "CERTIFICATE"]) :=
  ⟨rfl,
    c4_jceks_emission_order jceksStreamW "ks.jceks" (fun _ => "pw") jceksKsW
      "server" (fun _ => .ok (.rsa [9], [{ raw := [1] }, { raw := [2] }]))
      [9] { raw := [1] } { raw := [2] } rfl,
    rfl⟩

/-- C7: a named, non-stdin PEM input holding three certificate blocks
emits exactly three CERTIFICATE blocks, in stream order, each with an
`originFile` header equal to the file name; when the same stream is
read anonymously or from stdin, `originFile` is absent from every
emitted block. -/
theorem c7_pem_origin_headers (s : InStream) (name : String)
    (pw : String → String) (b1 b2 b3 : PemBlock)
    (hpem : s.pemBlocks = [b1, b2, b3])
    (ht1 : b1.type = "CERTIFICATE") (ht2 : b2.type = "CERTIFICATE")
    (ht3 : b3.type = "CERTIFICATE")
    (hn1 : name ≠ "") (hn2 : name ≠ stdinName)
    (hw1 : WFH b1.headers) (hw2 : WFH b2.headers) (hw3 : WFH b3.headers)
    (ho1 : hlookup b1.headers fileHeader = none)
    (ho2 : hlookup b2.headers fileHeader = none)
    (ho3 : hlookup b3.headers fileHeader = none) :
    ((readCertsFromStream s name "PEM" pw).emitted.map PemBlock.type
        = ["CERTIFICATE", "CERTIFICATE", "CERTIFICATE"]) ∧
    ((readCertsFromStream s name "PEM" pw).emitted.map PemBlock.bytes
        = [b1.bytes, b2.bytes, b3.bytes]) ∧
    (∀ blk ∈ (readCertsFromStream s name "PEM" pw).emitted,
        hlookup blk.headers fileHeader = some name) ∧
    (∀ blk ∈ (readCertsFromStream s "" "PEM" pw).emitted,
        hlookup blk.headers fileHeader = none) ∧
    (∀ blk ∈ (readCertsFromStream s stdinName "PEM" pw).emitted,
        hlookup blk.headers fileHeader = none) := by
  have hwnil : WFH [] := List.nodup_nil
  have hprov : provenanceHeaders name = [(fileHeader, name)] := by
    simp [provenanceHeaders, hn1, hn2]
  have hprov0 : provenanceHeaders "" = [] := by simp [provenanceHeaders]
  have hprovS : provenanceHeaders stdinName = [] := by simp [provenanceHeaders]
  have hem : (readCertsFromStream s name "PEM" pw).emitted
      = [b1, b2, b3].map (fun b =>
          { b with headers := mergeHeaders b.headers [(fileHeader, name)] }) := by
    simp [readCertsFromStream, hpem, hprov]
  have hem0 : (readCertsFromStream s "" "PEM" pw).emitted
      = [b1, b2, b3].map (fun b =>
          { b with headers := mergeHeaders b.headers [] }) := by
    simp [readCertsFromStream, hpem, hprov0]
  have hemS : (readCertsFromStream s stdinName "PEM" pw).emitted
      = [b1, b2, b3].map (fun b =>
          { b with headers := mergeHeaders b.headers [] }) := by
    simp [readCertsFromStream, hpem, hprovS]
  refine ⟨?_, ?_, ?_, ?_, ?_⟩
  · rw [hem]; simp [ht1, ht2, ht3]
  · rw [hem]; simp
  · rw [hem]
    intro blk hblk
    simp only [List.map_cons, List.map_nil, List.mem_cons, List.not_mem_nil,
      or_false] at hblk
    rcases hblk with hblk | hblk | hblk <;> subst hblk <;>
      exact hlookup_mergeHeaders_single _ fileHeader name
  · rw [hem0]
    intro blk hblk
    simp only [List.map_cons, List.map_nil, List.mem_cons, List.not_mem_nil,
      or_false] at hblk
    rcases hblk with hblk | hblk | hblk <;> subst hblk <;>
      simp only [] <;>
      rw [hlookup_mergeHeaders _ [] fileHeader (by assumption) hwnil] <;>
      simp [hlookup, optOr, ho1, ho2, ho3]
  · rw [hemS]
    intro blk hblk
    simp only [List.map_cons, List.map_nil, List.mem_cons, List.not_mem_nil,
      or_false] at hblk
    rcases hblk with hblk | hblk | hblk <;> subst hblk <;>
      simp only [] <;>
      rw [hlookup_mergeHeaders _ [] fileHeader (by assumption) hwnil] <;>
      simp [hlookup, optOr, ho1, ho2, ho3]

/-- A PEM stream scanning to three headerless certificate blocks. -/
def pemStreamW : InStream :=
  { bytes := [], readAll := .ok (), pemBlocks :=
      [{ type := "CERTIFICATE", bytes := [1], headers := [] },
       { type := "CERTIFICATE", bytes := [2], headers := [] },
       { type := "CERTIFICATE", bytes := [3], headers := [] }],
    x509Certs := .error "unused", pkcs7Blocks := .error "unused",
    pkcs12Pem := fun _ => .error "unused", jceksStore := fun _ => .error "unused" }

theorem c7_pem_origin_headers_witness :
    (pemStreamW.pemBlocks
        = [{ type := "CERTIFICATE", bytes := [1], headers := [] },
           { type := "CERTIFICATE", bytes := [2], headers := [] },
           { type := "CERTIFICATE", bytes := [3], headers := [] }] ∧
      ("certs.pem" : String) ≠ "" ∧ ("certs.pem" : String) ≠ stdinName) ∧
    (((readCertsFromStream pemStreamW "certs.pem" "PEM" (fun _ => "")).emitted.map
          PemBlock.type = ["CERTIFICATE", "CERTIFICATE", "CERTIFICATE"]) ∧
      ((readCertsFromStream pemStreamW "certs.pem" "PEM" (fun _ => "")).emitted.map
          PemBlock.bytes = [[1], [2], [3]]) ∧
      (∀ blk ∈ (readCertsFromStream pemStreamW "certs.pem" "PEM" (fun _ => "")).emitted,
          hlookup blk.headers fileHeader = some "certs.pem") ∧
      (∀ blk ∈ (readCertsFromStream pemStreamW "" "PEM" (fun _ => "")).emitted,
          hlookup blk.headers fileHeader = none) ∧
      (∀ blk ∈ (readCertsFromStream pemStreamW stdinName "PEM" (fun _ => "")).emitted,
          hlookup blk.headers fileHeader = none)) :=
  ⟨⟨rfl, by decide, by decide⟩,
    c7_pem_origin_headers pemStreamW "certs.pem" (fun _ => "")
      { type := "CERTIFICATE", bytes := [1], headers := [] }
      { type := "CERTIFICATE", bytes := [2], headers := [] }
      { type := "CERTIFICATE", bytes := [3], headers := [] }
      rfl rfl rfl rfl (by decide) (by decide)
      List.nodup_nil List.nodup_nil List.nodup_nil rfl rfl rfl⟩

theorem peek4_eq_none : ∀ l : List Nat, l.length < 4 → peek4 l = none
  | [], _ => rfl
  | [_], _ => rfl
  | [_, _], _ => rfl
  | [_, _, _], _ => rfl
  | _ :: _ :: _ :: _ :: _, h => by
    exfalso
    simp only [List.length_cons] at h
    omega

/-- C9: with no format hint and no recognized extension, a stream
shorter than four bytes makes the 4-byte peek (and hence format
detection) fail, and the reader returns the error at once: nothing is
emitted for that input or for any later input in the list. -/
theorem c9_short_stream_aborts (s : InStream) (rest : List InStream)
    (f : FileInput) (frest : List FileInput) (pw : String → String)
    (hlen : s.bytes.length < 4)
    (hflen : f.stream.bytes.length < 4)
    (hfext : fileExtToFormat (strLower (filepathExt f.name)) = none) :
    ReadPEM (s :: rest) "" pw
      = { emitted := [], warnings := [],
          ret := some "unable to guess format for input stream" } ∧
    ReadPEMFromFiles (f :: frest) "" pw
      = { emitted := [], warnings := [],
          ret := some ("unable to guess file type (for file " ++ f.name ++ ")\n") } := by
  have hext0 : fileExtToFormat (strLower (filepathExt "")) = none := by decide
  have h1 : formatForFile s.bytes "" "" = .error "unable to read file" := by
    simp [formatForFile, hext0, peek4_eq_none s.bytes hlen]
  have h2 : formatForFile f.stream.bytes f.name "" = .error "unable to read file" := by
    simp [formatForFile, hfext, peek4_eq_none f.stream.bytes hflen]
  constructor
  · simp [ReadPEM, h1]
  · simp [ReadPEMFromFiles, h2]

/-- A completely empty input stream. -/
def emptyStreamW : InStream :=
  { bytes := [], readAll := .ok (), pemBlocks := [],
    x509Certs := .error "unused", pkcs7Blocks := .error "unused",
    pkcs12Pem := fun _ => .error "unused", jceksStore := fun _ => .error "unused" }

theorem c9_short_stream_aborts_witness :
    (emptyStreamW.bytes.length < 4 ∧
      fileExtToFormat (strLower (filepathExt "input")) = none) ∧
    (ReadPEM [emptyStreamW] "" (fun _ => "")
        = { emitted := [], warnings := [],
            ret := some "unable to guess format for input stream" } ∧
      ReadPEMFromFiles [⟨"input", emptyStreamW⟩] "" (fun _ => "")
        = { emitted := [], warnings := [],
            ret := some ("unable to guess file type (for file " ++ "input" ++ ")\n") }) :=
  ⟨⟨by decide, by decide⟩,
    c9_short_stream_aborts emptyStreamW [] ⟨"input", emptyStreamW⟩ [] (fun _ => "")
      (by decide) (by decide) (by decide)⟩

end Certigo
